import Mathlib

/-!
# HDGeant4 forward calorimeter sensitive detector

A shallow embedding of `src/src/GlueXSensitiveDetectorFCAL.cc`:

* `ProcessHits` (lines 129-239): truth-point latch, attenuation and
  propagation correction of a step, and the online merge of the corrected hit
  into the block's time-ordered hit vector;
* the per-block merge-and-threshold loop of `EndOfEvent` (lines 292-307).

C++ `double` values are elements of a linearly ordered field `α` (no NaN, no
infinities).  The two time differences that the code compares with a window
(lines 209 and 294) are rounded through `Config.fl`, for which `binary64` is
the rounding to the nearest `double`; the other arithmetic is exact.  Hit
vectors are lists, taken to be shorter than the range of the `int` and
`unsigned int` indices of the source.  All definitions are generic in `α` and
computable; at `α = ℚ` they can be evaluated, at `α = ℝ` the library function
`exp` is the real exponential.
-/

namespace FCAL

set_option linter.unusedSectionVars false

/-! ## CLHEP system of units (`G4SystemOfUnits.hh`, not part of the repository)

Geant4 uses millimetre, nanosecond and MeV as base units. -/

namespace CLHEP

variable {α : Type} [LinearOrderedField α]

/-- Nanosecond, the base unit of time. -/
def ns : α := 1
/-- Second, `1e9 ns`. -/
def s : α := 10 ^ 9
/-- Centimetre, `10 mm`. -/
def cm : α := 10
/-- The base unit of energy. -/
def MeV : α := 1
/-- Giga electron volt, `1000 MeV`. -/
def GeV : α := 1000

end CLHEP

/-! ## Data model -/

/-- Three-vector `G4ThreeVector` with its components `v[0]`, `v[1]`, `v[2]`. -/
structure G4ThreeVector (α : Type) where
  x : α
  y : α
  z : α

/-- Inner product `a.dot(b)`. -/
def G4ThreeVector.dot {α : Type} [LinearOrderedField α] (a b : G4ThreeVector α) : α :=
  a.x * b.x + a.y * b.y + a.z * b.z

/-- Midpoint `(a + b) / 2` of two points (line 142). -/
def G4ThreeVector.mid {α : Type} [LinearOrderedField α] (a b : G4ThreeVector α) :
    G4ThreeVector α :=
  ⟨(a.x + b.x) / 2, (a.y + b.y) / 2, (a.z + b.z) / 2⟩

/-- One entry `GlueXHitFCALblock::hitinfo_t` of the hit vector of a block, with
the two fields the file uses.  The declaration is in the header
`GlueXHitFCALblock.hh`, which is not among the sources; a value-initialised
`hitinfo_t()` (line 213) has both fields zero. -/
structure hitinfo_t (α : Type) where
  E_GeV : α
  t_ns : α

/-- Block record `GlueXHitFCALblock` with the members the file uses: column, row
and the hit vector. -/
structure GlueXHitFCALblock (α : Type) where
  column_ : Int
  row_ : Int
  hits : List (hitinfo_t α)

/-- Truth point record `GlueXHitFCALpoint` with the members written in lines
174-185 (the same members as `GlueXHitUPVpoint` of `GlueXHitUPVpoint.cc`). -/
structure GlueXHitFCALpoint (α : Type) where
  E_GeV : α
  primary_ : Bool
  ptype_G3 : Int
  px_GeV : α
  py_GeV : α
  pz_GeV : α
  x_cm : α
  y_cm : α
  z_cm : α
  t_ns : α
  track_ : Int
  trackID_ : Int

/-- Modelled from the spec: the class `GlueXUserTrackInformation`, whose source is
missing, as the per-track marker store of the spec ("get/set a small integer
already-recorded flag and a reconstruction-track id, keyed by track id").
`GetGlueXHistory` and `GetGlueXTrackID` read the two fields, `SetGlueXHistory`
and `SetGlueXTrackID` overwrite them. -/
structure GlueXUserTrackInformation where
  GlueXHistory : Int
  GlueXTrackID : Int

/-- What `ProcessHits` reads from a `G4Step`.  The geometry look-ups made through
the touchable (the local-from-global transform and the two `GetIdent` calls) are
external to the file and recorded here by their values. -/
structure G4Step (α : Type) where
  /-- The value of `step->GetTotalEnergyDeposit()`. -/
  dEsum : α
  /-- Pre-step momentum. -/
  pin : G4ThreeVector α
  /-- Pre-step position. -/
  xin : G4ThreeVector α
  /-- Post-step position. -/
  xout : G4ThreeVector α
  /-- Pre-step total energy. -/
  Ein : α
  /-- Pre-step global time. -/
  tin : α
  /-- Post-step global time. -/
  tout : α
  /-- The transform `touch->GetHistory()->GetTopTransform()`. -/
  local_from_global : G4ThreeVector α → G4ThreeVector α
  /-- The value of `track->GetTrackID()`. -/
  trackID : Int
  /-- The value of `track->GetDynamicParticle()->GetPDGcode()`. -/
  pdgtype : Int
  /-- The value of `track->GetParentID()`. -/
  parentID : Int
  /-- The value of `GetIdent("column", touch)`. -/
  column : Int
  /-- The value of `GetIdent("row", touch)`. -/
  row : Int

/-- The static data members of `GlueXSensitiveDetectorFCAL` used by the hit logic
(lines 30-48, overwritten from the calibration database in the constructor),
together with the three functions the file calls but does not define. -/
structure Config (α : Type) where
  MAX_HITS : Int
  LENGTH_OF_BLOCK : α
  ATTENUATION_LENGTH : α
  C_EFFECTIVE : α
  TWO_HIT_TIME_RESOL : α
  THRESH_MEV : α
  /-- Rounding of the exact value of a `double` subtraction to its `double`
  result; the identity gives exact arithmetic, `binary64` the arithmetic of the
  compiled code. -/
  fl : α → α
  /-- The C library function `exp`. -/
  exp : α → α
  /-- The static function `GlueXHitFCALblock::GetKey`. -/
  GetKey : Int → Int → Int
  /-- The static function `GlueXPrimaryGeneratorAction::ConvertPdgToGeant3`. -/
  ConvertPdgToGeant3 : Int → Int

/-- Per-event state of the sensitive detector: the two hits maps, the per-track
user information reachable from the steps, and the number of truncation
messages written to `G4cerr`. -/
structure SDState (α : Type) where
  /-- Blocks map: `fBlocksMap key` is `none` where `(*fBlocksMap)[key]` is null. -/
  fBlocksMap : Int → Option (GlueXHitFCALblock α)
  /-- Points map as the list of its (key, point) entries in order of insertion. -/
  fPointsMap : List (Int × GlueXHitFCALpoint α)
  /-- User information attached to the track with the given track id. -/
  trackinfo : Int → GlueXUserTrackInformation
  /-- Number of "max hit count exceeded, truncating!" messages issued. -/
  truncations : Nat

variable {α : Type} [LinearOrderedField α]

/-- State after `Initialize` (lines 118-127): two fresh, empty hits maps. -/
def Initialize (trackinfo : Int → GlueXUserTrackInformation) : SDState α :=
  { fBlocksMap := fun _ => none, fPointsMap := [], trackinfo := trackinfo, truncations := 0 }

/-- Member `G4THitsMap::entries()`: the number of entries of the map. -/
def entries (m : List (Int × GlueXHitFCALpoint α)) : Int := (m.length : Int)

/-- Member `G4THitsMap::add(key, hit)` of Geant4: a new key gets the hit; on an
existing key the entry is combined with the hit through `operator+=`, which for
truth points only reports an error and leaves the entry as it is (as
`GlueXHitUPVpoint::operator+=` in `GlueXHitUPVpoint.cc` does). -/
def add (key : Int) (p : GlueXHitFCALpoint α) (m : List (Int × GlueXHitFCALpoint α)) :
    List (Int × GlueXHitFCALpoint α) :=
  if m.any (fun e => decide (e.1 = key)) then m else m ++ [(key, p)]

/-! ## `ProcessHits` -/

/-- Midpoint time `t` of a step (lines 143 and 156-157): the mean of the pre- and
post-step times, replaced by the pre-step time when the post-step time exceeds
one second. -/
def stepTime (step : G4Step α) : α :=
  if step.tout > 1 * CLHEP.s then step.tin else (step.tin + step.tout) / 2

/-- Local coordinates of the step midpoint (lines 142-148). -/
def stepLocal (step : G4Step α) : G4ThreeVector α :=
  step.local_from_global (G4ThreeVector.mid step.xin step.xout)

/-- Longitudinal distance to the readout face, `dist` of line 201. -/
def stepDist (P : Config α) (step : G4Step α) : α :=
  (1 / 2) * P.LENGTH_OF_BLOCK - (stepLocal step).z

/-- Attenuated energy deposit, `dEcorr` of line 202. -/
def stepEcorr (P : Config α) (step : G4Step α) : α :=
  step.dEsum * P.exp (-(stepDist P step) / P.ATTENUATION_LENGTH)

/-- Propagation-corrected time, `tcorr` of line 203. -/
def stepTcorr (P : Config α) (step : G4Step α) : α :=
  stepTime step + stepDist P step / P.C_EFFECTIVE

/-- The truth point filled in lines 169-185 for a step of a track whose
reconstruction track id is `gluexTrackID`. -/
def newPoint (P : Config α) (step : G4Step α) (gluexTrackID : Int) : GlueXHitFCALpoint α :=
  { ptype_G3 := P.ConvertPdgToGeant3 step.pdgtype
    track_ := step.trackID
    trackID_ := gluexTrackID
    primary_ := decide (step.parentID = 0)
    t_ns := stepTime step / CLHEP.ns
    x_cm := step.xin.x / CLHEP.cm
    y_cm := step.xin.y / CLHEP.cm
    z_cm := step.xin.z / CLHEP.cm
    px_GeV := step.pin.x / CLHEP.GeV
    py_GeV := step.pin.y / CLHEP.GeV
    pz_GeV := step.pin.z / CLHEP.GeV
    E_GeV := step.Ein / CLHEP.GeV }

/-- The scan of lines 207-217 over the hit vector.  The result `(before, rest)`
is the vector `before ++ rest` after the loop with the iterator `hiter` at the
head of `rest`; `rest = []` stands for `hiter == hits.end()`.  The difference
`hiter->t_ns/ns - t` of line 209 is rounded (`P.fl`) before `fabs` and the
comparison with the window.  A hit inserted at line 213 is value-initialised
and gets the placeholder time `1e99`. -/
def scanHits (P : Config α) (t : α) : List (hitinfo_t α) → List (hitinfo_t α) × List (hitinfo_t α)
  | [] => ([], [])
  | h :: rest =>
    if |P.fl (h.t_ns / CLHEP.ns - t)| < P.TWO_HIT_TIME_RESOL then ([], h :: rest)
    else if h.t_ns / CLHEP.ns > t then ([], { E_GeV := 0, t_ns := 10 ^ 99 } :: h :: rest)
    else ((scanHits P t rest).1.cons h, (scanHits P t rest).2)

/-- Lines 221-224 applied to the hit under the iterator. -/
def mergeHit (dEcorr tcorr : α) (h : hitinfo_t α) : hitinfo_t α :=
  if h.t_ns > tcorr then { E_GeV := h.E_GeV + dEcorr / CLHEP.GeV, t_ns := tcorr / CLHEP.ns }
  else { E_GeV := h.E_GeV + dEcorr / CLHEP.GeV, t_ns := h.t_ns }

/-- Lines 207-236: the new hit vector of the block, and whether the truncation
message was written.  The cast `(int)block->hits.size()` is the length itself
for vectors of fewer than `2^31` hits. -/
def addHit (P : Config α) (t dEcorr tcorr : α) (hits : List (hitinfo_t α)) :
    List (hitinfo_t α) × Bool :=
  match scanHits P t hits with
  | (before, h :: rest) => (before ++ mergeHit dEcorr tcorr h :: rest, false)
  | (before, []) =>
    if (before.length : Int) < P.MAX_HITS then
      (before ++ [{ E_GeV := dEcorr / CLHEP.GeV, t_ns := tcorr / CLHEP.ns }], false)
    else (before, true)

/-- Whether lines 166-167 let the step create a truth point. -/
def pointCondition (P : Config α) (step : G4Step α) (st : SDState α) : Prop :=
  (st.trackinfo step.trackID).GlueXHistory = 0 ∧
    G4ThreeVector.dot step.xin step.pin > 0 ∧ step.Ein / CLHEP.MeV > P.THRESH_MEV

instance (P : Config α) (step : G4Step α) (st : SDState α) :
    Decidable (pointCondition P step st) := by
  unfold pointCondition; infer_instance

/-- Lines 162-188: post the truth point and set the latch of the track. -/
def postPoint (P : Config α) (step : G4Step α) (st : SDState α) : SDState α :=
  if pointCondition P step st then
    { st with
      fPointsMap := add (entries st.fPointsMap)
        (newPoint P step (st.trackinfo step.trackID).GlueXTrackID) st.fPointsMap
      trackinfo := fun id =>
        if id = step.trackID then { GlueXHistory := 2, GlueXTrackID := step.trackID }
        else st.trackinfo id }
  else st

/-- Lines 192-237: post the corrected hit to the block of the step. -/
def postHit (P : Config α) (step : G4Step α) (st : SDState α) : SDState α :=
  if step.dEsum > 0 then
    let key := P.GetKey step.column step.row
    let block : GlueXHitFCALblock α :=
      match st.fBlocksMap key with
      | some b => b
      | none => { column_ := step.column, row_ := step.row, hits := [] }
    let r := addHit P (stepTime step) (stepEcorr P step) (stepTcorr P step) block.hits
    { st with
      fBlocksMap := fun k => if k = key then some { block with hits := r.1 } else st.fBlocksMap k
      truncations := if r.2 then st.truncations + 1 else st.truncations }
  else st

/-- The function `GlueXSensitiveDetectorFCAL::ProcessHits` (lines 129-239): the
returned flag and the state it leaves. -/
def ProcessHits (P : Config α) (step : G4Step α) (st : SDState α) : Bool × SDState α :=
  if step.dEsum = 0 then (false, st)
  else (true, postHit P step (postPoint P step st))

/-- The state after `ProcessHits` was called on the steps in order. -/
def processSteps (P : Config α) (steps : List (G4Step α)) (st : SDState α) : SDState α :=
  steps.foldl (fun st step => (ProcessHits P step st).2) st

/-- Hit vector of the block with the given key; empty where there is no block. -/
def blockHits (st : SDState α) (key : Int) : List (hitinfo_t α) :=
  match st.fBlocksMap key with
  | some b => b.hits
  | none => []

/-! ## `EndOfEvent`: merge-and-threshold loop (lines 292-307) -/

/-- Inner loop of lines 293-302 for the hit `h = hits[ih]` and the hits after
it.  Returns the final `hits[ih]` and the hits left after it: a later hit for
which the rounded difference `hits[ih].t_ns - hits[ih2].t_ns` of line 294 is
below 1 ns in absolute value is added to the current `hits[ih]` and erased (the
index `ih2` then stays, `--ih2` followed by `++ih2`), any other is kept. -/
def mergeLater (P : Config α) (h : hitinfo_t α) :
    List (hitinfo_t α) → hitinfo_t α × List (hitinfo_t α)
  | [] => (h, [])
  | h2 :: rest =>
    if |P.fl (h.t_ns - h2.t_ns)| < 1 then
      mergeLater P { E_GeV := h.E_GeV + h2.E_GeV,
                     t_ns := if h.t_ns > h2.t_ns then h2.t_ns else h.t_ns } rest
    else ((mergeLater P h rest).1, h2 :: (mergeLater P h rest).2)

/-- Outer loop of lines 292-307 with `n` iterations left, on the hits from index
`ih` on (the hits before `ih` are final and no longer read).  After the inner
loop the hit `hits[ih]` is erased when below `THRESH_MEV/1e3` and the index
stays (`--ih` followed by `++ih`, for `ih = 0` through the wrap-around of
`unsigned int`); otherwise the hit is kept and the index advances. -/
def EndOfEvent_loop (P : Config α) : Nat → List (hitinfo_t α) → List (hitinfo_t α)
  | 0, hits => hits
  | _ + 1, [] => []
  | n + 1, h :: rest =>
    if (mergeLater P h rest).1.E_GeV < P.THRESH_MEV / 1000 then
      EndOfEvent_loop P n (mergeLater P h rest).2
    else (mergeLater P h rest).1 :: EndOfEvent_loop P n (mergeLater P h rest).2

/-- Hit vector of a block after the loop of lines 292-307.  Every iteration of the
outer loop disposes of one hit, so `hits.size()` iterations suffice. -/
def EndOfEvent_hits (P : Config α) (hits : List (hitinfo_t α)) : List (hitinfo_t α) :=
  EndOfEvent_loop P hits.length hits

/-! ## Concrete configurations -/

/-- Modelled from the spec: the block key of the missing header
`GlueXHitFCALblock.hh`, "an integer key derived from a 2D (column, row)
coordinate pair (key = row-major encoding, invertible)". -/
def GetKey (column row : Int) : Int := row * 100 + column

/-- The initial values of the static data members (lines 30-48), for a given
exponential function, in exact arithmetic.  The particle-type mapper is not
among the sources; the identity stands in for it. -/
def defaultConfig (exp : α → α) : Config α :=
  { MAX_HITS := 100
    LENGTH_OF_BLOCK := 45 * CLHEP.cm
    ATTENUATION_LENGTH := 100 * CLHEP.cm
    C_EFFECTIVE := 15 * CLHEP.cm / CLHEP.ns
    TWO_HIT_TIME_RESOL := 75 * CLHEP.ns
    THRESH_MEV := 5
    fl := fun x => x
    exp := exp
    GetKey := GetKey
    ConvertPdgToGeant3 := fun pdg => pdg }

/-! ## Auxiliary notions -/

/-- A hit list is time-ordered when its times are non-decreasing. -/
def TimeOrdered (hits : List (hitinfo_t α)) : Prop :=
  hits.Pairwise (fun a b => a.t_ns ≤ b.t_ns)

instance (hits : List (hitinfo_t α)) : Decidable (TimeOrdered hits) := by
  unfold TimeOrdered; infer_instance

/-- A step with `tin = tout = t` whose midpoint has local z-coordinate `z`, with
energy deposit `dE`, in the block of column 10 and row 10. -/
def stepAt (t z dE : α) : G4Step α :=
  { dEsum := dE, pin := ⟨0, 0, 1⟩, xin := ⟨0, 0, z⟩, xout := ⟨0, 0, z⟩, Ein := 1000,
    tin := t, tout := t, local_from_global := fun v => v, trackID := 1, pdgtype := 22,
    parentID := 0, column := 10, row := 10 }

/-- The default constants with the merge window set to 1 ns. -/
def narrowWindowConfig (exp : α → α) : Config α :=
  { defaultConfig exp with TWO_HIT_TIME_RESOL := 1 }

/-- The default constants with the hit cap `MAX_HITS` set to `n`. -/
def cappedConfig (n : Int) (exp : α → α) : Config α :=
  { defaultConfig exp with MAX_HITS := n }

/-- No two hits of the list, at any two positions, are closer in time than the
finalization window of 1 ns. -/
def Separated (hits : List (hitinfo_t α)) : Prop :=
  hits.Pairwise (fun a b => ¬ |a.t_ns - b.t_ns| < 1)

instance (hits : List (hitinfo_t α)) : Decidable (Separated hits) := by
  unfold Separated; infer_instance

/-- The conditions under which a step can create a truth point for a track whose
history marker is 0: the step passes the zero-deposit return of lines 133-134
and the direction and energy tests of line 167. -/
def stepQualifies (P : Config α) (step : G4Step α) : Prop :=
  step.dEsum ≠ 0 ∧ G4ThreeVector.dot step.xin step.pin > 0 ∧
    step.Ein / CLHEP.MeV > P.THRESH_MEV

instance (P : Config α) (step : G4Step α) : Decidable (stepQualifies P step) := by
  unfold stepQualifies; infer_instance

/-- The keys of the points map are `0, 1, 2, ...` in order of insertion. -/
def KeysInOrder (m : List (Int × GlueXHitFCALpoint α)) : Prop :=
  m.map Prod.fst = (List.range m.length).map Int.ofNat

instance (m : List (Int × GlueXHitFCALpoint α)) : Decidable (KeysInOrder m) := by
  unfold KeysInOrder; infer_instance

/-- The steps that create a truth point when the steps are processed in order
starting from the per-track information `ti`. -/
def latchedSteps (P : Config α) :
    (Int → GlueXUserTrackInformation) → List (G4Step α) → List (G4Step α)
  | _, [] => []
  | ti, step :: steps =>
    if stepQualifies P step ∧ (ti step.trackID).GlueXHistory = 0 then
      step :: latchedSteps P
        (fun id => if id = step.trackID then { GlueXHistory := 2, GlueXTrackID := step.trackID }
          else ti id) steps
    else latchedSteps P ti steps

/-- A step creates a truth point exactly when it qualifies and the history marker of
its track is 0. -/
def createsPoint (P : Config α) (step : G4Step α) (st : SDState α) : Prop :=
  stepQualifies P step ∧ (st.trackinfo step.trackID).GlueXHistory = 0

instance (P : Config α) (step : G4Step α) (st : SDState α) :
    Decidable (createsPoint P step st) := by
  unfold createsPoint; infer_instance

/-- No two hits of the list, at any two positions, have a time difference that the
test of line 294 (rounded difference of the earlier position minus the later
one, absolute value below 1) finds inside the finalization window. -/
def SeparatedAsComputed (P : Config α) (hits : List (hitinfo_t α)) : Prop :=
  hits.Pairwise (fun a b => ¬ |P.fl (a.t_ns - b.t_ns)| < 1)

instance (P : Config α) (hits : List (hitinfo_t α)) : Decidable (SeparatedAsComputed P hits) := by
  unfold SeparatedAsComputed; infer_instance

/-- The integer nearest to `q`, the even one of the two when `q` lies half way. -/
def nearestEven [FloorRing α] (q : α) : Int :=
  if q - ⌊q⌋ < 1 / 2 then ⌊q⌋
  else if 1 / 2 < q - ⌊q⌋ then ⌊q⌋ + 1
  else if ⌊q⌋ % 2 = 0 then ⌊q⌋ else ⌊q⌋ + 1

/-- Rounding to the nearest IEEE 754 binary64 number (`double`), ties to even, for
results in the finite range: 53 significant bits, so a spacing of `2^(e-52)`
for `2^e <= |x| < 2^(e+1)`, and the spacing `2^(-1074)` below `2^(-1022)`. -/
def binary64 [FloorRing α] (x : α) : α :=
  (nearestEven (x / 2 ^ (max (Int.log 2 |x|) (-1022) - 52)) : α) *
    2 ^ (max (Int.log 2 |x|) (-1022) - 52)

/-- The default constants with the subtractions of lines 209 and 294 rounded to
`double`. -/
def doubleConfig [FloorRing α] (exp : α → α) : Config α :=
  { defaultConfig exp with fl := binary64 }
/-! # Theorems -/

/-! ## Sequences of steps -/

theorem processSteps_cons (P : Config α) (step : G4Step α) (steps : List (G4Step α))
    (st : SDState α) :
    processSteps P (step :: steps) st = processSteps P steps (ProcessHits P step st).2 := by
  simp [processSteps]

theorem processSteps_append (P : Config α) (steps1 steps2 : List (G4Step α)) (st : SDState α) :
    processSteps P (steps1 ++ steps2) st = processSteps P steps2 (processSteps P steps1 st) := by
  simp [processSteps]

/-! ## C1: time monotonicity of the online merge -/

/-- C1 evaluated at two failing inputs; all steps have deposit 1 MeV and a distance
inside the block.  With a merge window of 1 ns (other constants default), a
step at `t = 100` ns at distance 0 followed by a step at `t = 98` ns at
distance 45 cm (corrected time 101 ns): the hit at 100 ns is 2 ns from `t` and
later than `t`, so line 213 inserts the new hit before it and the list becomes
`101, 100`.  With the default constants, steps at distance 0 with midpoint
times `2e99`, `3e99`, `2.5e99`: the hit inserted for the third step keeps the
placeholder time of line 214 and the list becomes `2e99, 1e99, 3e99`.  Neither
list is non-decreasing in `t_ns`. -/
theorem C1_time_order_broken :
    ((∀ step ∈ [stepAt 100 225 1, stepAt 98 (-225) (1 : ℝ)],
        step.dEsum ≠ 0 ∧ 0 ≤ stepDist (narrowWindowConfig Real.exp) step ∧
        stepDist (narrowWindowConfig Real.exp) step ≤
          (narrowWindowConfig Real.exp).LENGTH_OF_BLOCK) ∧
      (blockHits (processSteps (narrowWindowConfig Real.exp)
        [stepAt 100 225 1, stepAt 98 (-225) 1]
        (Initialize (fun _ => ⟨0, 0⟩))) (GetKey 10 10)).map (fun h => h.t_ns) = [101, 100] ∧
      ¬ TimeOrdered (blockHits (processSteps (narrowWindowConfig Real.exp)
        [stepAt 100 225 1, stepAt 98 (-225) 1]
        (Initialize (fun _ => ⟨0, 0⟩))) (GetKey 10 10))) ∧
    ((∀ step ∈ [stepAt (2 * 10 ^ 99) 225 1, stepAt (3 * 10 ^ 99) 225 1,
        stepAt (25 * 10 ^ 98) 225 (1 : ℝ)],
        step.dEsum ≠ 0 ∧ 0 ≤ stepDist (defaultConfig Real.exp) step ∧
        stepDist (defaultConfig Real.exp) step ≤ (defaultConfig Real.exp).LENGTH_OF_BLOCK) ∧
      (blockHits (processSteps (defaultConfig Real.exp)
        [stepAt (2 * 10 ^ 99) 225 1, stepAt (3 * 10 ^ 99) 225 1, stepAt (25 * 10 ^ 98) 225 1]
        (Initialize (fun _ => ⟨0, 0⟩))) (GetKey 10 10)).map (fun h => h.t_ns) =
        [2 * 10 ^ 99, 10 ^ 99, 3 * 10 ^ 99] ∧
      ¬ TimeOrdered (blockHits (processSteps (defaultConfig Real.exp)
        [stepAt (2 * 10 ^ 99) 225 1, stepAt (3 * 10 ^ 99) 225 1, stepAt (25 * 10 ^ 98) 225 1]
        (Initialize (fun _ => ⟨0, 0⟩))) (GetKey 10 10))) := by
  refine ⟨⟨?_, ?_, ?_⟩, ⟨?_, ?_, ?_⟩⟩ <;>
    norm_num [processSteps, ProcessHits, postHit, postPoint, pointCondition, blockHits,
      Initialize, stepAt, defaultConfig, narrowWindowConfig, addHit, scanHits, mergeHit, stepTime,
      stepTcorr, stepEcorr, stepDist, stepLocal, G4ThreeVector.mid, G4ThreeVector.dot, CLHEP.ns,
      CLHEP.s, CLHEP.cm, CLHEP.GeV, CLHEP.MeV, abs_lt, add, entries, TimeOrdered]

/-! ## Rounding to `double` -/

/-- The value of `binary64` at a number that lies less than half a spacing above
the multiple `n * 2^(e-52)` of the spacing. -/
theorem binary64_of_lt_half [FloorRing α] (x : α) (e n : Int) (he : -1022 ≤ e)
    (h1 : (2 : α) ^ e ≤ |x|) (h2 : |x| < (2 : α) ^ (e + 1))
    (hn1 : (n : α) ≤ x / 2 ^ (e - 52)) (hn2 : x / 2 ^ (e - 52) < n + 1 / 2) :
    binary64 x = n * 2 ^ (e - 52) := by
  have hpos : (0 : α) < |x| := lt_of_lt_of_le (zpow_pos (by norm_num) e) h1
  have hlog : Int.log 2 |x| = e := by
    have ha : e ≤ Int.log 2 |x| :=
      (Int.zpow_le_iff_le_log (by norm_num) hpos).mp (by simpa using h1)
    have hb : Int.log 2 |x| < e + 1 :=
      (Int.lt_zpow_iff_log_lt (by norm_num) hpos).mp (by simpa using h2)
    omega
  have hfloor : ⌊x / 2 ^ (e - 52)⌋ = n := by
    rw [Int.floor_eq_iff]
    constructor
    · exact hn1
    · linarith
  unfold binary64
  rw [hlog, max_eq_left he]
  unfold nearestEven
  rw [hfloor, if_pos (by linarith)]

/-- The difference `2^(-60) - 1` rounds to `-1`. -/
theorem binary64_example :
    binary64 ((2 : ℝ) ^ (-60 : ℤ) - 1) = -1 := by
  have h := binary64_of_lt_half ((2 : ℝ) ^ (-60 : ℤ) - 1) (-1) (-(2 ^ 53)) (by norm_num)
    (by
      rw [abs_of_neg (by norm_num)]
      norm_num)
    (by
      rw [abs_of_neg (by norm_num)]
      norm_num)
    (by norm_num) (by norm_num)
  rw [h]
  norm_num

/-- The difference `2^(-60) - 75` rounds to `-75`. -/
theorem binary64_example_window :
    binary64 ((2 : ℝ) ^ (-60 : ℤ) - 75) = -75 := by
  have h := binary64_of_lt_half ((2 : ℝ) ^ (-60 : ℤ) - 75) 6 (-(75 * 2 ^ 46)) (by norm_num)
    (by
      rw [abs_of_neg (by norm_num)]
      norm_num)
    (by
      rw [abs_of_neg (by norm_num)]
      norm_num)
    (by norm_num) (by norm_num)
  rw [h]
  norm_num

/-- The window test of line 209 in `double` arithmetic: a block holding one hit at
`2^(-60)` ns and a corrected step with `t = tcorr = 75` ns.  The difference
`2^(-60) - 75` rounds to `-75`, which is not inside the window of 75 ns, so a
second hit is appended; in exact arithmetic the step merges into the hit. -/
theorem window_test_is_rounded :
    (addHit (doubleConfig Real.exp) 75 1 75 [⟨1, 2 ^ (-60 : ℤ)⟩]).1.map (fun h => h.t_ns) =
      [2 ^ (-60 : ℤ), 75] ∧
    (addHit (defaultConfig Real.exp) 75 1 75 [⟨1, 2 ^ (-60 : ℤ)⟩]).1.map (fun h => h.t_ns) =
      [2 ^ (-60 : ℤ)] := by
  constructor
  · have hfl : (doubleConfig Real.exp).fl ((2 : ℝ) ^ (-60 : ℤ) / CLHEP.ns - 75) = -75 := by
      simp only [doubleConfig, CLHEP.ns, div_one, binary64_example_window]
    simp only [addHit, scanHits, hfl]
    norm_num [doubleConfig, defaultConfig, CLHEP.ns]
  · norm_num [addHit, scanHits, mergeHit, defaultConfig, CLHEP.ns, abs_lt]


/-! ## C2: energy conservation of the online merge -/

/-- C2 evaluated at a failing input.  With the default constants, a step with
deposit 1 MeV at `t = 100` ns at distance 0 (corrected time 100 ns) followed by
a step with deposit 1 MeV at `t = 24.5` ns at distance 22.5 cm (corrected time
26 ns) have corrected times 74 ns apart, inside the merge window of 75 ns, and
yet leave two hits in the block, at 26 and 100 ns, each with the energy of one
step: line 209 compares the hit time 100 with the midpoint time 24.5. -/
theorem C2_two_hits_inside_window :
    (∀ step ∈ [stepAt 100 225 1, stepAt (49 / 2) 0 (1 : ℝ)], step.dEsum ≠ 0 ∧
      (defaultConfig Real.exp).GetKey step.column step.row = GetKey 10 10) ∧
    |stepTcorr (defaultConfig Real.exp) (stepAt 100 225 1) -
      stepTcorr (defaultConfig Real.exp) (stepAt (49 / 2) 0 1)| <
        (defaultConfig Real.exp).TWO_HIT_TIME_RESOL ∧
    (blockHits (processSteps (defaultConfig Real.exp)
      [stepAt 100 225 1, stepAt (49 / 2) 0 1] (Initialize (fun _ => ⟨0, 0⟩)))
      (GetKey 10 10)).map (fun h => h.t_ns) = [26, 100] ∧
    (blockHits (processSteps (defaultConfig Real.exp)
      [stepAt 100 225 1, stepAt (49 / 2) 0 1] (Initialize (fun _ => ⟨0, 0⟩)))
      (GetKey 10 10)).length = 2 := by
  refine ⟨?_, ?_, ?_, ?_⟩ <;>
    norm_num [processSteps, ProcessHits, postHit, postPoint, pointCondition, blockHits,
      Initialize, stepAt, defaultConfig, narrowWindowConfig, addHit, scanHits, mergeHit, stepTime,
      stepTcorr, stepEcorr, stepDist, stepLocal, G4ThreeVector.mid, G4ThreeVector.dot, CLHEP.ns,
      CLHEP.s, CLHEP.cm, CLHEP.GeV, CLHEP.MeV, abs_lt, add, entries, TimeOrdered]

/-! ## C3: the hit cap -/

/-- C3 evaluated with `MAX_HITS = 2` on three steps with deposit 1 MeV at distance 0
and midpoint times 1000 ns apart, so that no two of them can merge.  Arriving
in increasing time order, the third step is dropped with one truncation
message and two hits remain.  Arriving in decreasing time order, every step is
inserted before the hits already present (line 213), the cap of line 226 is
never consulted, and the block ends with three hits and no truncation message. -/
theorem C3_cap_bypassed_by_insertion :
    ((blockHits (processSteps (cappedConfig 2 Real.exp)
        [stepAt 0 225 1, stepAt 1000 225 1, stepAt 2000 225 1]
        (Initialize (fun _ => ⟨0, 0⟩))) (GetKey 10 10)).length = 2 ∧
      (processSteps (cappedConfig 2 Real.exp)
        [stepAt 0 225 1, stepAt 1000 225 1, stepAt 2000 225 1]
        (Initialize (fun _ => ⟨0, 0⟩))).truncations = 1) ∧
    ((blockHits (processSteps (cappedConfig 2 Real.exp)
        [stepAt 2000 225 1, stepAt 1000 225 1, stepAt 0 225 1]
        (Initialize (fun _ => ⟨0, 0⟩))) (GetKey 10 10)).map (fun h => h.t_ns) = [0, 1000, 2000] ∧
      (processSteps (cappedConfig 2 Real.exp)
        [stepAt 2000 225 1, stepAt 1000 225 1, stepAt 0 225 1]
        (Initialize (fun _ => ⟨0, 0⟩))).truncations = 0) := by
  refine ⟨⟨?_, ?_⟩, ⟨?_, ?_⟩⟩ <;>
    norm_num [processSteps, ProcessHits, postHit, postPoint, pointCondition, blockHits,
      Initialize, stepAt, defaultConfig, cappedConfig, addHit, scanHits, mergeHit, stepTime,
      stepTcorr, stepEcorr, stepDist, stepLocal, G4ThreeVector.mid, G4ThreeVector.dot,
      CLHEP.ns, CLHEP.s, CLHEP.cm, CLHEP.GeV, CLHEP.MeV, abs_lt, add, entries]

/-! ## C4: the online merge rule -/

/-- C4 evaluated at a failing input.  With the default constants, a step with
deposit 1 MeV at `t = 200` ns at distance 0 leaves one hit at 200 ns.  A second
step with deposit 1 MeV at `t = 124` ns at distance 45 cm has
`tcorr = 127` ns, within 75 ns of the hit, and yet `ProcessHits` creates a new
hit at 127 ns and leaves the hit at 200 ns as it was: line 209 finds the hit
76 ns from the midpoint time `t`. -/
theorem C4_new_hit_inside_window :
    (blockHits (processSteps (defaultConfig Real.exp) [stepAt 200 225 1]
      (Initialize (fun _ => ⟨0, 0⟩))) (GetKey 10 10)).map (fun h => h.t_ns) = [200] ∧
    (0 : ℝ) < (stepAt 124 (-225) 1).dEsum ∧
    |(200 : ℝ) - stepTcorr (defaultConfig Real.exp) (stepAt 124 (-225) 1)| <
      (defaultConfig Real.exp).TWO_HIT_TIME_RESOL ∧
    (blockHits (processSteps (defaultConfig Real.exp) [stepAt 200 225 1, stepAt 124 (-225) 1]
      (Initialize (fun _ => ⟨0, 0⟩))) (GetKey 10 10)).map (fun h => h.t_ns) = [127, 200] ∧
    (blockHits (processSteps (defaultConfig Real.exp) [stepAt 200 225 1, stepAt 124 (-225) 1]
      (Initialize (fun _ => ⟨0, 0⟩))) (GetKey 10 10)).length = 2 := by
  refine ⟨?_, ?_, ?_, ?_, ?_⟩ <;>
    norm_num [processSteps, ProcessHits, postHit, postPoint, pointCondition, blockHits,
      Initialize, stepAt, defaultConfig, narrowWindowConfig, addHit, scanHits, mergeHit, stepTime,
      stepTcorr, stepEcorr, stepDist, stepLocal, G4ThreeVector.mid, G4ThreeVector.dot, CLHEP.ns,
      CLHEP.s, CLHEP.cm, CLHEP.GeV, CLHEP.MeV, abs_lt, add, entries, TimeOrdered]

/-! ## The merge-and-threshold loop of `EndOfEvent` -/

theorem mergeLater_length_le (P : Config α) (l : List (hitinfo_t α)) :
    ∀ h : hitinfo_t α, (mergeLater P h l).2.length ≤ l.length := by
  induction l with
  | nil => intro h; simp [mergeLater]
  | cons h2 rest ih =>
    intro h
    by_cases hc : |P.fl (h.t_ns - h2.t_ns)| < 1
    · simp only [mergeLater, hc, if_true, List.length_cons]
      exact Nat.le_succ_of_le (ih _)
    · simp only [mergeLater, hc, if_false, List.length_cons]
      exact Nat.succ_le_succ (ih _)

/-- The result of the outer loop does not depend on the number of iterations
granted, as long as there are at least `hits.size()` of them. -/
theorem EndOfEvent_loop_fuel (P : Config α) :
    ∀ (n m : Nat) (l : List (hitinfo_t α)), l.length ≤ n → l.length ≤ m →
      EndOfEvent_loop P n l = EndOfEvent_loop P m l := by
  intro n
  induction n with
  | zero =>
    intro m l hn _
    have hl : l = [] := List.length_eq_zero.mp (Nat.le_zero.mp hn)
    subst hl
    cases m <;> simp [EndOfEvent_loop]
  | succ n ih =>
    intro m l hn hm
    cases l with
    | nil => cases m <;> simp [EndOfEvent_loop]
    | cons h rest =>
      cases m with
      | zero => simp at hm
      | succ m =>
        have h1 : (mergeLater P h rest).2.length ≤ n :=
          le_trans (mergeLater_length_le P rest h) (Nat.le_of_succ_le_succ hn)
        have h2 : (mergeLater P h rest).2.length ≤ m :=
          le_trans (mergeLater_length_le P rest h) (Nat.le_of_succ_le_succ hm)
        simp only [EndOfEvent_loop]
        rw [ih m _ h1 h2]

theorem EndOfEvent_hits_nil (P : Config α) : EndOfEvent_hits P ([] : List (hitinfo_t α)) = [] := by
  simp [EndOfEvent_hits, EndOfEvent_loop]

/-- One iteration of the outer loop. -/
theorem EndOfEvent_hits_cons (P : Config α) (h : hitinfo_t α) (rest : List (hitinfo_t α)) :
    EndOfEvent_hits P (h :: rest) =
      if (mergeLater P h rest).1.E_GeV < P.THRESH_MEV / 1000 then
        EndOfEvent_hits P (mergeLater P h rest).2
      else (mergeLater P h rest).1 :: EndOfEvent_hits P (mergeLater P h rest).2 := by
  unfold EndOfEvent_hits
  simp only [List.length_cons, EndOfEvent_loop]
  rw [EndOfEvent_loop_fuel P rest.length (mergeLater P h rest).2.length _
    (mergeLater_length_le P rest h) (le_refl _)]

/-- Induction along the iterations of the outer loop. -/
theorem EndOfEvent_hits_induction (P : Config α) (Q : List (hitinfo_t α) → Prop)
    (hnil : Q [])
    (hcons : ∀ h rest, Q (mergeLater P h rest).2 → Q (h :: rest)) :
    ∀ l, Q l := by
  have key : ∀ (n : Nat) (l : List (hitinfo_t α)), l.length ≤ n → Q l := by
    intro n
    induction n with
    | zero =>
      intro l hl
      have hl2 : l = [] := List.length_eq_zero.mp (Nat.le_zero.mp hl)
      subst hl2
      exact hnil
    | succ n ih =>
      intro l hl
      cases l with
      | nil => exact hnil
      | cons h rest =>
        exact hcons h rest (ih _ (le_trans (mergeLater_length_le P rest h)
          (Nat.le_of_succ_le_succ hl)))
  intro l
  exact key l.length l (le_refl _)

theorem mergeLater_of_le (P : Config α) (l : List (hitinfo_t α)) :
    ∀ h : hitinfo_t α, (∀ x ∈ l, h.t_ns ≤ x.t_ns) →
      (mergeLater P h l).1.t_ns = h.t_ns ∧ (mergeLater P h l).2.Sublist l ∧
      ∀ x ∈ (mergeLater P h l).2, ¬ |P.fl (h.t_ns - x.t_ns)| < 1 := by
  induction l with
  | nil => intro h _; simp [mergeLater]
  | cons h2 rest ih =>
    intro h hle
    have hle2 : h.t_ns ≤ h2.t_ns := hle h2 (List.mem_cons_self _ _)
    have hnot : ¬ h.t_ns > h2.t_ns := not_lt.mpr hle2
    by_cases hc : |P.fl (h.t_ns - h2.t_ns)| < 1
    · simp only [mergeLater, hc, if_true, hnot, if_false]
      obtain ⟨i1, i2, i3⟩ := ih { E_GeV := h.E_GeV + h2.E_GeV, t_ns := h.t_ns }
        (fun x hx => hle x (List.mem_cons_of_mem _ hx))
      exact ⟨i1, List.Sublist.cons _ i2, i3⟩
    · simp only [mergeLater, hc, if_false]
      obtain ⟨i1, i2, i3⟩ := ih h (fun x hx => hle x (List.mem_cons_of_mem _ hx))
      refine ⟨i1, List.Sublist.cons₂ _ i2, ?_⟩
      intro x hx
      rcases List.mem_cons.mp hx with hx | hx
      · subst hx; exact hc
      · exact i3 x hx

theorem mergeLater_of_separated (P : Config α) (l : List (hitinfo_t α)) (h : hitinfo_t α)
    (hsep : ∀ x ∈ l, ¬ |P.fl (h.t_ns - x.t_ns)| < 1) : mergeLater P h l = (h, l) := by
  induction l with
  | nil => simp [mergeLater]
  | cons h2 rest ih =>
    have hc := hsep h2 (List.mem_cons_self _ _)
    have ih2 := ih (fun x hx => hsep x (List.mem_cons_of_mem _ hx))
    simp only [mergeLater, hc, if_false, ih2]

/-- On a time-ordered list the loop leaves a list in which the test of line 294
fails for every two hits, and whose times all occur in the input. -/
theorem EndOfEvent_hits_separated_aux (P : Config α) :
    ∀ l : List (hitinfo_t α), TimeOrdered l →
      SeparatedAsComputed P (EndOfEvent_hits P l) ∧
        ∀ x ∈ EndOfEvent_hits P l, ∃ y ∈ l, x.t_ns = y.t_ns := by
  apply EndOfEvent_hits_induction P
  · intro _
    simp [EndOfEvent_hits_nil, SeparatedAsComputed]
  · intro h rest ih hord
    unfold TimeOrdered at hord
    rw [List.pairwise_cons] at hord
    obtain ⟨m1, m2, m3⟩ := mergeLater_of_le P rest h hord.1
    obtain ⟨ih1, ih2⟩ := ih (List.Pairwise.sublist m2 hord.2)
    have htail : ∀ x ∈ EndOfEvent_hits P (mergeLater P h rest).2, ∃ y ∈ h :: rest, x.t_ns = y.t_ns := by
      intro x hx
      obtain ⟨y, hy1, hy2⟩ := ih2 x hx
      exact ⟨y, List.mem_cons_of_mem _ (m2.subset hy1), hy2⟩
    rw [EndOfEvent_hits_cons]
    by_cases hth : (mergeLater P h rest).1.E_GeV < P.THRESH_MEV / 1000
    · simp only [hth, if_true]
      exact ⟨ih1, htail⟩
    · simp only [hth, if_false]
      constructor
      · unfold SeparatedAsComputed
        rw [List.pairwise_cons]
        refine ⟨?_, ih1⟩
        intro x hx
        obtain ⟨y, hy1, hy2⟩ := ih2 x hx
        rw [m1, hy2]
        exact m3 y hy1
      · intro x hx
        rcases List.mem_cons.mp hx with hx | hx
        · subst hx
          exact ⟨h, List.mem_cons_self _ _, m1⟩
        · exact htail x hx

theorem EndOfEvent_hits_above_threshold (P : Config α) :
    ∀ l : List (hitinfo_t α), ∀ x ∈ EndOfEvent_hits P l, P.THRESH_MEV / 1000 ≤ x.E_GeV := by
  apply EndOfEvent_hits_induction P
  · simp [EndOfEvent_hits_nil]
  · intro h rest ih x hx
    rw [EndOfEvent_hits_cons] at hx
    by_cases hth : (mergeLater P h rest).1.E_GeV < P.THRESH_MEV / 1000
    · simp only [hth, if_true] at hx
      exact ih x hx
    · simp only [hth, if_false] at hx
      rcases List.mem_cons.mp hx with hx | hx
      · subst hx; exact not_lt.mp hth
      · exact ih x hx

/-- A list of hits at or above threshold in which the test of line 294 fails for
every two hits is left as it is. -/
theorem EndOfEvent_hits_fixed (P : Config α) (l : List (hitinfo_t α))
    (hsep : SeparatedAsComputed P l)
    (hth : ∀ x ∈ l, P.THRESH_MEV / 1000 ≤ x.E_GeV) : EndOfEvent_hits P l = l := by
  induction l with
  | nil => exact EndOfEvent_hits_nil P
  | cons h rest ih =>
    unfold SeparatedAsComputed at hsep
    rw [List.pairwise_cons] at hsep
    have hm := mergeLater_of_separated P rest h hsep.1
    have hE : ¬ h.E_GeV < P.THRESH_MEV / 1000 := not_lt.mpr (hth h (List.mem_cons_self _ _))
    rw [EndOfEvent_hits_cons, hm]
    simp only [hE, if_false]
    rw [ih hsep.2 (fun x hx => hth x (List.mem_cons_of_mem _ hx))]

/-! ## C5: separation after finalization -/

/-- C5 (as amended): for every time-ordered (non-decreasing `t_ns`) hit list of a
block, the list left by the merge-and-threshold loop of `EndOfEvent` contains
no two hits, at any two positions, for which the test of line 294 holds, that
is whose time difference as the code computes it (the rounded difference of the
earlier position minus the later one, in absolute value) is less than 1 ns. -/
theorem C5_finalization_separation (P : Config α) (hits : List (hitinfo_t α))
    (hord : TimeOrdered hits) : SeparatedAsComputed P (EndOfEvent_hits P hits) :=
  (EndOfEvent_hits_separated_aux P hits hord).1

/-- C5 in `double` arithmetic on hits at 10, 10.5, 11.25 and 30 ns. -/
theorem C5_finalization_separation_witness :
    TimeOrdered [(⟨1, 10⟩ : hitinfo_t ℝ), ⟨1, 21 / 2⟩, ⟨1, 45 / 4⟩, ⟨1, 30⟩] ∧
    SeparatedAsComputed (doubleConfig Real.exp) (EndOfEvent_hits (doubleConfig Real.exp)
      [(⟨1, 10⟩ : hitinfo_t ℝ), ⟨1, 21 / 2⟩, ⟨1, 45 / 4⟩, ⟨1, 30⟩]) :=
  have h : TimeOrdered [(⟨1, 10⟩ : hitinfo_t ℝ), ⟨1, 21 / 2⟩, ⟨1, 45 / 4⟩, ⟨1, 30⟩] := by
    norm_num [TimeOrdered]
  ⟨h, C5_finalization_separation (doubleConfig Real.exp) _ h⟩

/-- C5 fails as stated.  In `double` arithmetic the time-ordered hits at `2^(-60)`
and 1 ns (1 GeV each) are both kept: their difference `2^(-60) - 1` rounds to
`-1`, which is not below 1 in absolute value, although the two times differ by
less than 1 ns. -/
theorem C5_counterexample :
    TimeOrdered [(⟨1, 2 ^ (-60 : ℤ)⟩ : hitinfo_t ℝ), ⟨1, 1⟩] ∧
    EndOfEvent_hits (doubleConfig Real.exp) [(⟨1, 2 ^ (-60 : ℤ)⟩ : hitinfo_t ℝ), ⟨1, 1⟩] =
      [⟨1, 2 ^ (-60 : ℤ)⟩, ⟨1, 1⟩] ∧
    |(2 : ℝ) ^ (-60 : ℤ) - 1| < 1 ∧
    ¬ Separated (EndOfEvent_hits (doubleConfig Real.exp)
      [(⟨1, 2 ^ (-60 : ℤ)⟩ : hitinfo_t ℝ), ⟨1, 1⟩]) := by
  have hout : EndOfEvent_hits (doubleConfig Real.exp)
      [(⟨1, 2 ^ (-60 : ℤ)⟩ : hitinfo_t ℝ), ⟨1, 1⟩] = [⟨1, 2 ^ (-60 : ℤ)⟩, ⟨1, 1⟩] := by
    simp only [EndOfEvent_hits, EndOfEvent_loop, mergeLater, doubleConfig, List.length_cons,
      List.length_nil, binary64_example]
    norm_num [EndOfEvent_loop, mergeLater, defaultConfig]
  have hclose : |(2 : ℝ) ^ (-60 : ℤ) - 1| < 1 := by
    rw [abs_lt]; constructor <;> norm_num
  refine ⟨by norm_num [TimeOrdered], hout, hclose, ?_⟩
  rw [hout]
  simp only [Separated, List.pairwise_cons, List.mem_singleton, forall_eq, List.not_mem_nil,
    false_implies, implies_true, List.Pairwise.nil, and_true, not_not]
  exact hclose

/-! ## C6: threshold filter -/

/-- C6: for every hit list, every hit surviving the merge-and-threshold loop of
`EndOfEvent` has `E_GeV >= THRESH_MEV/1000`; and a list of a single hit keeps
that hit if and only if its energy is `>= THRESH_MEV/1000` GeV, so a hit exactly
at the threshold is retained and a hit below it is removed. -/
theorem C6_threshold_filter (P : Config α) :
    (∀ hits : List (hitinfo_t α), ∀ x ∈ EndOfEvent_hits P hits, P.THRESH_MEV / 1000 ≤ x.E_GeV) ∧
    (∀ h : hitinfo_t α,
      EndOfEvent_hits P [h] = if P.THRESH_MEV / 1000 ≤ h.E_GeV then [h] else []) ∧
    (∀ t : α, EndOfEvent_hits P [⟨P.THRESH_MEV / 1000, t⟩] = [⟨P.THRESH_MEV / 1000, t⟩]) := by
  refine ⟨EndOfEvent_hits_above_threshold P, ?_, ?_⟩
  · intro h
    by_cases hc : P.THRESH_MEV / 1000 ≤ h.E_GeV
    · simp [EndOfEvent_hits, EndOfEvent_loop, mergeLater, hc, not_lt.mpr hc]
    · simp [EndOfEvent_hits, EndOfEvent_loop, mergeLater, hc, not_le.mp hc]
  · intro t
    simp [EndOfEvent_hits, EndOfEvent_loop, mergeLater]

/-! ## C7: idempotence of finalization -/

/-- C7 (as amended): for every time-ordered block hit list `L`, applying the
merge-and-threshold loop of `EndOfEvent` twice gives the same hit list as
applying it once. -/
theorem C7_finalization_idempotent (P : Config α) (hits : List (hitinfo_t α))
    (hord : TimeOrdered hits) :
    EndOfEvent_hits P (EndOfEvent_hits P hits) = EndOfEvent_hits P hits :=
  EndOfEvent_hits_fixed P _ (EndOfEvent_hits_separated_aux P hits hord).1
    (EndOfEvent_hits_above_threshold P hits)

/-- C7 at the default constants on hits at 10, 10.5, 11.2 and 30 ns. -/
theorem C7_finalization_idempotent_witness :
    TimeOrdered [(⟨1, 10⟩ : hitinfo_t ℝ), ⟨1, 21 / 2⟩, ⟨1, 56 / 5⟩, ⟨1, 30⟩] ∧
    EndOfEvent_hits (defaultConfig Real.exp) (EndOfEvent_hits (defaultConfig Real.exp)
      [(⟨1, 10⟩ : hitinfo_t ℝ), ⟨1, 21 / 2⟩, ⟨1, 56 / 5⟩, ⟨1, 30⟩]) =
    EndOfEvent_hits (defaultConfig Real.exp)
      [(⟨1, 10⟩ : hitinfo_t ℝ), ⟨1, 21 / 2⟩, ⟨1, 56 / 5⟩, ⟨1, 30⟩] :=
  have h : TimeOrdered [(⟨1, 10⟩ : hitinfo_t ℝ), ⟨1, 21 / 2⟩, ⟨1, 56 / 5⟩, ⟨1, 30⟩] := by
    norm_num [TimeOrdered]
  ⟨h, C7_finalization_idempotent (defaultConfig Real.exp) _ h⟩

/-- C7 fails as stated.  On the hits at 5, 3.5 and 4.2 ns (1 GeV each), not
time-ordered, the first pass merges the third hit into the first, whose time
becomes 4.2 ns, and leaves the hit at 3.5 ns, already passed by the inner
loop; a second pass merges these two. -/
theorem C7_counterexample :
    (EndOfEvent_hits (defaultConfig Real.exp)
      [(⟨1, 5⟩ : hitinfo_t ℝ), ⟨1, 7 / 2⟩, ⟨1, 21 / 5⟩]).map (fun h => (h.E_GeV, h.t_ns)) =
      [(2, 21 / 5), (1, 7 / 2)] ∧
    (EndOfEvent_hits (defaultConfig Real.exp) (EndOfEvent_hits (defaultConfig Real.exp)
      [(⟨1, 5⟩ : hitinfo_t ℝ), ⟨1, 7 / 2⟩, ⟨1, 21 / 5⟩])).map (fun h => (h.E_GeV, h.t_ns)) =
      [(3, 7 / 2)] ∧
    EndOfEvent_hits (defaultConfig Real.exp) (EndOfEvent_hits (defaultConfig Real.exp)
      [(⟨1, 5⟩ : hitinfo_t ℝ), ⟨1, 7 / 2⟩, ⟨1, 21 / 5⟩]) ≠
    EndOfEvent_hits (defaultConfig Real.exp) [(⟨1, 5⟩ : hitinfo_t ℝ), ⟨1, 7 / 2⟩, ⟨1, 21 / 5⟩] := by
  have h1 : EndOfEvent_hits (defaultConfig Real.exp)
      [(⟨1, 5⟩ : hitinfo_t ℝ), ⟨1, 7 / 2⟩, ⟨1, 21 / 5⟩] = [⟨2, 21 / 5⟩, ⟨1, 7 / 2⟩] := by
    norm_num [EndOfEvent_hits, EndOfEvent_loop, mergeLater, defaultConfig, abs_lt]
  have h2 : EndOfEvent_hits (defaultConfig Real.exp) [(⟨2, 21 / 5⟩ : hitinfo_t ℝ), ⟨1, 7 / 2⟩] =
      [⟨3, 7 / 2⟩] := by
    norm_num [EndOfEvent_hits, EndOfEvent_loop, mergeLater, defaultConfig, abs_lt]
  refine ⟨?_, ?_, ?_⟩
  · rw [h1]; simp
  · rw [h1, h2]; simp
  · rw [h1, h2]; simp

/-! ## Truth points -/

theorem add_entries (m : List (Int × GlueXHitFCALpoint α)) (p : GlueXHitFCALpoint α)
    (hm : KeysInOrder m) : add (entries m) p m = m ++ [((m.length : Int), p)] := by
  have hnone : ¬ (m.any (fun e => decide (e.1 = entries m)) = true) := by
    intro hany
    rw [List.any_eq_true] at hany
    obtain ⟨e, he, hk⟩ := hany
    have hk2 : e.1 = (m.length : Int) := by simpa [entries] using hk
    have hmem : e.1 ∈ m.map Prod.fst := List.mem_map_of_mem _ he
    rw [hm, List.mem_map] at hmem
    obtain ⟨k, hk3, hk4⟩ := hmem
    rw [List.mem_range] at hk3
    have hk5 : (k : Int) = (m.length : Int) := by rw [← hk2, ← hk4]; rfl
    omega
  unfold add
  rw [if_neg hnone]
  rfl

theorem keysInOrder_append (m : List (Int × GlueXHitFCALpoint α)) (p : GlueXHitFCALpoint α)
    (hm : KeysInOrder m) : KeysInOrder (m ++ [((m.length : Int), p)]) := by
  unfold KeysInOrder at hm ⊢
  rw [List.map_append, hm, List.length_append, List.length_singleton, List.range_succ,
    List.map_append]
  simp

theorem postHit_fPointsMap (P : Config α) (step : G4Step α) (st : SDState α) :
    (postHit P step st).fPointsMap = st.fPointsMap := by
  unfold postHit
  by_cases hE : 0 < step.dEsum <;> simp [hE]

theorem postHit_trackinfo (P : Config α) (step : G4Step α) (st : SDState α) :
    (postHit P step st).trackinfo = st.trackinfo := by
  unfold postHit
  by_cases hE : 0 < step.dEsum <;> simp [hE]

theorem createsPoint_iff (P : Config α) (step : G4Step α) (st : SDState α) :
    createsPoint P step st ↔ step.dEsum ≠ 0 ∧ pointCondition P step st := by
  unfold createsPoint stepQualifies pointCondition
  tauto

theorem ProcessHits_fPointsMap (P : Config α) (step : G4Step α) (st : SDState α) :
    (ProcessHits P step st).2.fPointsMap =
      if createsPoint P step st then
        add (entries st.fPointsMap) (newPoint P step (st.trackinfo step.trackID).GlueXTrackID)
          st.fPointsMap
      else st.fPointsMap := by
  unfold ProcessHits
  by_cases h0 : step.dEsum = 0
  · have hn : ¬ createsPoint P step st := fun hc => ((createsPoint_iff P step st).mp hc).1 h0
    simp [h0, hn]
  · simp only [h0, if_false]
    rw [postHit_fPointsMap]
    unfold postPoint
    by_cases hc : pointCondition P step st
    · have hcp : createsPoint P step st := (createsPoint_iff P step st).mpr ⟨h0, hc⟩
      simp [hc, hcp]
    · have hn : ¬ createsPoint P step st := fun h => hc ((createsPoint_iff P step st).mp h).2
      simp [hc, hn]

theorem ProcessHits_trackinfo (P : Config α) (step : G4Step α) (st : SDState α) :
    (ProcessHits P step st).2.trackinfo =
      if createsPoint P step st then
        fun id => if id = step.trackID then { GlueXHistory := 2, GlueXTrackID := step.trackID }
          else st.trackinfo id
      else st.trackinfo := by
  unfold ProcessHits
  by_cases h0 : step.dEsum = 0
  · have hn : ¬ createsPoint P step st := fun hc => ((createsPoint_iff P step st).mp hc).1 h0
    simp [h0, hn]
  · simp only [h0, if_false]
    rw [postHit_trackinfo]
    unfold postPoint
    by_cases hc : pointCondition P step st
    · have hcp : createsPoint P step st := (createsPoint_iff P step st).mpr ⟨h0, hc⟩
      simp [hc, hcp]
    · have hn : ¬ createsPoint P step st := fun h => hc ((createsPoint_iff P step st).mp h).2
      simp [hc, hn]

theorem latchedSteps_cons_pos (P : Config α) (ti : Int → GlueXUserTrackInformation)
    (step : G4Step α) (steps : List (G4Step α))
    (hc : stepQualifies P step ∧ (ti step.trackID).GlueXHistory = 0) :
    latchedSteps P ti (step :: steps) = step :: latchedSteps P
      (fun id => if id = step.trackID then { GlueXHistory := 2, GlueXTrackID := step.trackID }
        else ti id) steps := by
  simp only [latchedSteps]
  rw [if_pos hc]

theorem latchedSteps_cons_neg (P : Config α) (ti : Int → GlueXUserTrackInformation)
    (step : G4Step α) (steps : List (G4Step α))
    (hc : ¬ (stepQualifies P step ∧ (ti step.trackID).GlueXHistory = 0)) :
    latchedSteps P ti (step :: steps) = latchedSteps P ti steps := by
  simp only [latchedSteps]
  rw [if_neg hc]

theorem latchedSteps_sublist (P : Config α) (steps : List (G4Step α)) :
    ∀ ti : Int → GlueXUserTrackInformation, (latchedSteps P ti steps).Sublist steps := by
  induction steps with
  | nil => intro ti; simp [latchedSteps]
  | cons step steps ih =>
    intro ti
    by_cases hc : stepQualifies P step ∧ (ti step.trackID).GlueXHistory = 0
    · rw [latchedSteps_cons_pos P ti step steps hc]
      exact List.Sublist.cons₂ _ (ih _)
    · rw [latchedSteps_cons_neg P ti step steps hc]
      exact List.Sublist.cons _ (ih _)

theorem latchedSteps_mem (P : Config α) (steps : List (G4Step α)) :
    ∀ ti : Int → GlueXUserTrackInformation, ∀ s ∈ latchedSteps P ti steps,
      stepQualifies P s ∧ (ti s.trackID).GlueXHistory = 0 := by
  induction steps with
  | nil => intro ti s hs; simp [latchedSteps] at hs
  | cons step steps ih =>
    intro ti s hs
    by_cases hc : stepQualifies P step ∧ (ti step.trackID).GlueXHistory = 0
    · rw [latchedSteps_cons_pos P ti step steps hc] at hs
      rcases List.mem_cons.mp hs with hs | hs
      · subst hs; exact hc
      · obtain ⟨h1, h2⟩ := ih _ s hs
        refine ⟨h1, ?_⟩
        by_cases hid : s.trackID = step.trackID
        · simp [hid] at h2
        · simpa [hid] using h2
    · rw [latchedSteps_cons_neg P ti step steps hc] at hs
      exact ih ti s hs

theorem latchedSteps_nodup (P : Config α) (steps : List (G4Step α)) :
    ∀ ti : Int → GlueXUserTrackInformation,
      ((latchedSteps P ti steps).map (fun s => s.trackID)).Nodup := by
  induction steps with
  | nil => intro ti; simp [latchedSteps]
  | cons step steps ih =>
    intro ti
    by_cases hc : stepQualifies P step ∧ (ti step.trackID).GlueXHistory = 0
    · rw [latchedSteps_cons_pos P ti step steps hc, List.map_cons, List.nodup_cons]
      refine ⟨?_, ih _⟩
      intro hmem
      rw [List.mem_map] at hmem
      obtain ⟨s, hs1, hs2⟩ := hmem
      have h2 := (latchedSteps_mem P steps _ s hs1).2
      simp [hs2] at h2
    · rw [latchedSteps_cons_neg P ti step steps hc]
      exact ih ti

theorem latchedSteps_first (P : Config α) (step : G4Step α) (later : List (G4Step α))
    (hq : stepQualifies P step) (earlier : List (G4Step α)) :
    ∀ ti : Int → GlueXUserTrackInformation, (ti step.trackID).GlueXHistory = 0 →
      (∀ s ∈ earlier, s.trackID = step.trackID → ¬ stepQualifies P s) →
      step ∈ latchedSteps P ti (earlier ++ step :: later) := by
  induction earlier with
  | nil =>
    intro ti h0 _
    rw [List.nil_append, latchedSteps_cons_pos P ti step later ⟨hq, h0⟩]
    exact List.mem_cons_self _ _
  | cons e earlier ih =>
    intro ti h0 hnone
    rw [List.cons_append]
    by_cases hc : stepQualifies P e ∧ (ti e.trackID).GlueXHistory = 0
    · rw [latchedSteps_cons_pos P ti e _ hc]
      apply List.mem_cons_of_mem
      have hne : ¬ step.trackID = e.trackID := fun h =>
        hnone e (List.mem_cons_self _ _) h.symm hc.1
      apply ih
      · simpa [hne] using h0
      · exact fun s hs => hnone s (List.mem_cons_of_mem _ hs)
    · rw [latchedSteps_cons_neg P ti e _ hc]
      exact ih ti h0 (fun s hs => hnone s (List.mem_cons_of_mem _ hs))

/-- The points map after a sequence of steps: the old entries followed by the
points of the latched steps, with keys continuing in order. -/
theorem processSteps_fPointsMap (P : Config α) (steps : List (G4Step α)) :
    ∀ st : SDState α, KeysInOrder st.fPointsMap →
      KeysInOrder (processSteps P steps st).fPointsMap ∧
      ∃ extra, (processSteps P steps st).fPointsMap = st.fPointsMap ++ extra ∧
        extra.map Prod.snd = (latchedSteps P st.trackinfo steps).map
          (fun s => newPoint P s (st.trackinfo s.trackID).GlueXTrackID) := by
  induction steps with
  | nil =>
    intro st hk
    exact ⟨by simpa [processSteps] using hk, [], by simp [processSteps], by simp [latchedSteps]⟩
  | cons step steps ih =>
    intro st hk
    rw [processSteps_cons]
    by_cases hc : createsPoint P step st
    · have hp : (ProcessHits P step st).2.fPointsMap = st.fPointsMap ++
          [((st.fPointsMap.length : Int),
            newPoint P step (st.trackinfo step.trackID).GlueXTrackID)] := by
        rw [ProcessHits_fPointsMap, if_pos hc, add_entries _ _ hk]
      have ht : (ProcessHits P step st).2.trackinfo = fun id =>
          if id = step.trackID then { GlueXHistory := 2, GlueXTrackID := step.trackID }
          else st.trackinfo id := by
        rw [ProcessHits_trackinfo, if_pos hc]
      have hk1 : KeysInOrder (ProcessHits P step st).2.fPointsMap := by
        rw [hp]; exact keysInOrder_append _ _ hk
      obtain ⟨ih1, extra, ih2, ih3⟩ := ih (ProcessHits P step st).2 hk1
      refine ⟨ih1, (((st.fPointsMap.length : Int),
        newPoint P step (st.trackinfo step.trackID).GlueXTrackID)) :: extra, ?_, ?_⟩
      · rw [ih2, hp, List.append_assoc, List.singleton_append]
      · rw [List.map_cons, ih3, latchedSteps_cons_pos P st.trackinfo step steps hc,
          List.map_cons, ht]
        congr 1
        apply List.map_congr_left
        intro s hs
        have h2 := (latchedSteps_mem P steps _ s hs).2
        by_cases hid : s.trackID = step.trackID
        · simp [hid] at h2
        · simp [hid]
    · have hp : (ProcessHits P step st).2.fPointsMap = st.fPointsMap := by
        rw [ProcessHits_fPointsMap, if_neg hc]
      have ht : (ProcessHits P step st).2.trackinfo = st.trackinfo := by
        rw [ProcessHits_trackinfo, if_neg hc]
      obtain ⟨ih1, extra, ih2, ih3⟩ := ih (ProcessHits P step st).2 (by rw [hp]; exact hk)
      refine ⟨ih1, extra, by rw [ih2, hp], ?_⟩
      rw [ih3, ht, latchedSteps_cons_neg P st.trackinfo step steps hc]

/-! ## C8: the truth-point latch -/

/-- C8 (as amended): for every sequence of steps of one event, starting with every
track's history marker equal to 0, the keys of the truth points are
`0, 1, 2, ...` in order of insertion; no two truth points have the same track;
the truth points are, in arrival order, the points built from a subsequence of
steps each of which has non-zero energy deposit, pre-step position dot pre-step
momentum `> 0` and pre-step total energy above `THRESH_MEV`; the first such
step of a track always has its point recorded; and the points recorded after
any initial segment of the steps are still there, unaltered and at the same
positions, at the end. -/
theorem C8_truth_point_latch (P : Config α) (steps : List (G4Step α))
    (ti : Int → GlueXUserTrackInformation) (h0 : ∀ id, (ti id).GlueXHistory = 0) :
    KeysInOrder (processSteps P steps (Initialize ti)).fPointsMap ∧
    ((processSteps P steps (Initialize ti)).fPointsMap.map (fun e => e.2.track_)).Nodup ∧
    (∃ created : List (G4Step α), created.Sublist steps ∧
      (∀ s ∈ created, stepQualifies P s) ∧
      (processSteps P steps (Initialize ti)).fPointsMap.map Prod.snd =
        created.map (fun s => newPoint P s (ti s.trackID).GlueXTrackID)) ∧
    (∀ (earlier later : List (G4Step α)) (step : G4Step α),
      steps = earlier ++ step :: later → stepQualifies P step →
      (∀ s ∈ earlier, s.trackID = step.trackID → ¬ stepQualifies P s) →
      newPoint P step (ti step.trackID).GlueXTrackID ∈
        (processSteps P steps (Initialize ti)).fPointsMap.map Prod.snd) ∧
    (∀ n : Nat, ∃ extra, (processSteps P steps (Initialize ti)).fPointsMap =
      (processSteps P (steps.take n) (Initialize ti)).fPointsMap ++ extra) := by
  have hinit : KeysInOrder (Initialize ti : SDState α).fPointsMap := by
    simp [Initialize, KeysInOrder]
  obtain ⟨hk, extra, he1, he2⟩ := processSteps_fPointsMap P steps (Initialize ti) hinit
  have hpts : (processSteps P steps (Initialize ti)).fPointsMap.map Prod.snd =
      (latchedSteps P ti steps).map (fun s => newPoint P s (ti s.trackID).GlueXTrackID) := by
    rw [he1]
    simpa [Initialize] using he2
  refine ⟨hk, ?_, ⟨latchedSteps P ti steps, latchedSteps_sublist P steps ti,
    fun s hs => (latchedSteps_mem P steps ti s hs).1, hpts⟩, ?_, ?_⟩
  · have htr : (processSteps P steps (Initialize ti)).fPointsMap.map (fun e => e.2.track_) =
        (latchedSteps P ti steps).map (fun s => s.trackID) := by
      have : (processSteps P steps (Initialize ti)).fPointsMap.map (fun e => e.2.track_) =
          ((processSteps P steps (Initialize ti)).fPointsMap.map Prod.snd).map
            (fun p => p.track_) := by
        rw [List.map_map]; rfl
      rw [this, hpts, List.map_map]
      rfl
    rw [htr]
    exact latchedSteps_nodup P steps ti
  · intro earlier later step hsteps hq hfirst
    rw [hpts, hsteps]
    exact List.mem_map_of_mem _
      (latchedSteps_first P step later hq earlier ti (h0 step.trackID) hfirst)
  · intro n
    have hsplit : processSteps P steps (Initialize ti) =
        processSteps P (steps.drop n) (processSteps P (steps.take n) (Initialize ti)) := by
      rw [← processSteps_append, List.take_append_drop]
    obtain ⟨hkn, _, _, _⟩ := processSteps_fPointsMap P (steps.take n) (Initialize ti) hinit
    obtain ⟨_, extra2, hx, _⟩ := processSteps_fPointsMap P (steps.drop n) _ hkn
    exact ⟨extra2, by rw [hsplit, hx]⟩

/-- C8 at the default constants on two qualifying steps of the same track. -/
theorem C8_truth_point_latch_witness :
    (∀ id : Int, ((fun _ => ⟨0, 0⟩ : Int → GlueXUserTrackInformation) id).GlueXHistory = 0) ∧
    (processSteps (defaultConfig Real.exp) [stepAt 0 225 1, stepAt 10 225 1]
      (Initialize (fun _ => ⟨0, 0⟩))).fPointsMap.map Prod.snd =
      [newPoint (defaultConfig Real.exp) (stepAt 0 225 1) 0] ∧
    ((processSteps (defaultConfig Real.exp) [stepAt 0 225 1, stepAt 10 225 1]
      (Initialize (fun _ => ⟨0, 0⟩))).fPointsMap.map (fun e => e.2.track_)).Nodup :=
  ⟨fun _ => rfl,
   by
    norm_num [processSteps, ProcessHits, postHit, postPoint, pointCondition, Initialize, stepAt,
      defaultConfig, G4ThreeVector.dot, CLHEP.MeV, add, entries],
   (C8_truth_point_latch (defaultConfig Real.exp) [stepAt 0 225 1, stepAt 10 225 1]
      (fun _ => ⟨0, 0⟩) (fun _ => rfl)).2.1⟩

/-- C8 fails as stated.  With the default constants, a step with zero energy deposit
that has pre-step position dot momentum `> 0` and pre-step energy above
`THRESH_MEV` records no truth point; when a second such step of the same track
with non-zero deposit follows at 10 ns, the point of the track is built from
the second step. -/
theorem C8_counterexample :
    (G4ThreeVector.dot (stepAt (0 : ℝ) 225 0).xin (stepAt (0 : ℝ) 225 0).pin > 0 ∧
      (stepAt (0 : ℝ) 225 0).Ein / CLHEP.MeV > (defaultConfig Real.exp).THRESH_MEV) ∧
    (processSteps (defaultConfig Real.exp) [stepAt 0 225 0]
      (Initialize (fun _ => ⟨0, 0⟩))).fPointsMap = [] ∧
    (processSteps (defaultConfig Real.exp) [stepAt 0 225 0, stepAt 10 225 1]
      (Initialize (fun _ => ⟨0, 0⟩))).fPointsMap.map Prod.snd =
      [newPoint (defaultConfig Real.exp) (stepAt 10 225 1) 0] := by
  refine ⟨⟨?_, ?_⟩, ?_, ?_⟩ <;>
    norm_num [processSteps, ProcessHits, postHit, postPoint, pointCondition, Initialize, stepAt,
      defaultConfig, G4ThreeVector.dot, CLHEP.MeV, add, entries]

/-! ## C9: contents of a truth point -/

/-- C9 (as amended): for every step that creates a truth point, the point is
appended with the next key, and its position, momentum and total energy are the
raw pre-step values of the step (position in cm, momentum and energy in GeV),
while its time is the midpoint time `t` of the step in ns: the mean of the pre-
and post-step global times, or the pre-step time when the post-step time
exceeds one second; none of them is propagation-corrected. -/
theorem C9_truth_point_contents (P : Config α) (step : G4Step α) (st : SDState α)
    (hnew : (ProcessHits P step st).2.fPointsMap ≠ st.fPointsMap) :
    ∃ p : GlueXHitFCALpoint α,
      (ProcessHits P step st).2.fPointsMap = st.fPointsMap ++ [(entries st.fPointsMap, p)] ∧
      p.t_ns = (if step.tout > 1 * CLHEP.s then step.tin
        else (step.tin + step.tout) / 2) / CLHEP.ns ∧
      p.x_cm = step.xin.x / CLHEP.cm ∧ p.y_cm = step.xin.y / CLHEP.cm ∧
      p.z_cm = step.xin.z / CLHEP.cm ∧
      p.px_GeV = step.pin.x / CLHEP.GeV ∧ p.py_GeV = step.pin.y / CLHEP.GeV ∧
      p.pz_GeV = step.pin.z / CLHEP.GeV ∧
      p.E_GeV = step.Ein / CLHEP.GeV := by
  rw [ProcessHits_fPointsMap] at hnew ⊢
  by_cases hc : createsPoint P step st
  · rw [if_pos hc] at hnew ⊢
    unfold add at hnew ⊢
    by_cases hany : (st.fPointsMap.any (fun e => decide (e.1 = entries st.fPointsMap))) = true
    · rw [if_pos hany] at hnew
      exact absurd rfl hnew
    · rw [if_neg hany]
      exact ⟨newPoint P step (st.trackinfo step.trackID).GlueXTrackID, rfl, rfl, rfl, rfl, rfl,
        rfl, rfl, rfl, rfl⟩
  · rw [if_neg hc] at hnew
    exact absurd rfl hnew

/-- C9 at the default constants: a step from 0 ns to 2 ns in the initial state. -/
theorem C9_truth_point_contents_witness :
    (ProcessHits (defaultConfig Real.exp) { stepAt 0 225 1 with tout := 2 }
      (Initialize (fun _ => ⟨0, 0⟩))).2.fPointsMap ≠
      (Initialize (fun _ => ⟨0, 0⟩) : SDState ℝ).fPointsMap ∧
    ∃ p : GlueXHitFCALpoint ℝ,
      (ProcessHits (defaultConfig Real.exp) { stepAt 0 225 1 with tout := 2 }
        (Initialize (fun _ => ⟨0, 0⟩))).2.fPointsMap =
        (Initialize (fun _ => ⟨0, 0⟩) : SDState ℝ).fPointsMap ++
          [(entries (Initialize (fun _ => ⟨0, 0⟩) : SDState ℝ).fPointsMap, p)] ∧
      p.t_ns = 1 ∧ p.z_cm = 225 / 10 ∧ p.pz_GeV = 1 / 1000 ∧ p.E_GeV = 1 :=
  have hnew : (ProcessHits (defaultConfig Real.exp) { stepAt 0 225 1 with tout := 2 }
      (Initialize (fun _ => ⟨0, 0⟩))).2.fPointsMap ≠
      (Initialize (fun _ => ⟨0, 0⟩) : SDState ℝ).fPointsMap := by
    norm_num [ProcessHits, postHit, postPoint, pointCondition, Initialize, stepAt,
      defaultConfig, G4ThreeVector.dot, CLHEP.MeV, add, entries]
  ⟨hnew, by
    obtain ⟨p, h1, h2, _, _, h5, _, _, h8, h9⟩ :=
      C9_truth_point_contents (defaultConfig Real.exp) { stepAt 0 225 1 with tout := 2 }
        (Initialize (fun _ => ⟨0, 0⟩)) hnew
    refine ⟨p, h1, ?_, ?_, ?_, ?_⟩
    · rw [h2]; norm_num [stepAt, CLHEP.s, CLHEP.ns]
    · rw [h5]; norm_num [stepAt, CLHEP.cm]
    · rw [h8]; norm_num [stepAt, CLHEP.GeV]
    · rw [h9]; norm_num [stepAt, CLHEP.GeV]⟩

/-- C9 fails as stated.  With the default constants, the truth point created by a
step with pre-step time 0 ns and post-step time 2 ns has time 1 ns, the
midpoint time, not the pre-step time. -/
theorem C9_counterexample :
    (ProcessHits (defaultConfig Real.exp) { stepAt 0 225 1 with tout := 2 }
      (Initialize (fun _ => ⟨0, 0⟩))).2.fPointsMap.map (fun e => e.2.t_ns) = [1] ∧
    ({ stepAt 0 225 1 with tout := 2 } : G4Step ℝ).tin / CLHEP.ns = 0 := by
  refine ⟨?_, ?_⟩ <;>
    norm_num [ProcessHits, postHit, postPoint, pointCondition, Initialize, stepAt,
      defaultConfig, G4ThreeVector.dot, CLHEP.MeV, CLHEP.ns, CLHEP.s, add, entries, newPoint,
      stepTime]

/-! ## C10: the worked example -/

/-- Bounds on `exp(-0.225)` from the Taylor polynomial of degree 3. -/
theorem exp_neg_nine_fortieths :
    (7982 : ℝ) / 10000 < Real.exp (-(9 / 40)) ∧ Real.exp (-(9 / 40)) < (7986 : ℝ) / 10000 := by
  have hx : |(-(9 / 40) : ℝ)| ≤ 1 := by
    rw [abs_le]; constructor <;> norm_num
  have hb := Real.exp_bound hx (show 0 < 4 by norm_num)
  rw [abs_le] at hb
  have habs : |(-(9 / 40) : ℝ)| = 9 / 40 := by
    rw [abs_neg, abs_of_pos (by norm_num)]
  rw [habs] at hb
  norm_num [Finset.sum_range_succ, Nat.factorial] at hb
  constructor <;> linarith [hb.1, hb.2]

/-- C10 (as amended): with the default constants (attenuation length 100 cm,
effective speed 15 cm/ns, block length 45 cm, merge window 75 ns), a step at
local z = 0 with raw energy 10 MeV and `t_mid = 50` ns has distance 22.5 cm,
corrected time 51.5 ns and corrected energy `10*exp(-0.225)` MeV (between 7.98
and 7.99 MeV), and leaves one hit; a following step at the same z with raw
energy 3 MeV and `t_mid = 51.8` ns is attenuated as well and merges into it,
leaving exactly one hit with time 51.5 ns and energy `13*exp(-0.225)` MeV,
which lies between 10.37 and 10.39 MeV. -/
theorem C10_worked_example :
    stepDist (defaultConfig Real.exp) (stepAt 50 0 10) = 22.5 * CLHEP.cm ∧
    stepTcorr (defaultConfig Real.exp) (stepAt 50 0 10) = 51.5 * CLHEP.ns ∧
    stepEcorr (defaultConfig Real.exp) (stepAt 50 0 10) =
      10 * Real.exp (-0.225) * CLHEP.MeV ∧
    (7.98 < 10 * Real.exp (-0.225) ∧ 10 * Real.exp (-0.225) < 7.99) ∧
    blockHits (processSteps (defaultConfig Real.exp) [stepAt 50 0 10]
      (Initialize (fun _ => ⟨0, 0⟩))) (GetKey 10 10) =
      [{ E_GeV := 10 * Real.exp (-0.225) * CLHEP.MeV / CLHEP.GeV, t_ns := 51.5 }] ∧
    blockHits (processSteps (defaultConfig Real.exp) [stepAt 50 0 10, stepAt 51.8 0 3]
      (Initialize (fun _ => ⟨0, 0⟩))) (GetKey 10 10) =
      [{ E_GeV := 13 * Real.exp (-0.225) * CLHEP.MeV / CLHEP.GeV, t_ns := 51.5 }] ∧
    (10.37 < 13 * Real.exp (-0.225) ∧ 13 * Real.exp (-0.225) < 10.39) := by
  have harg : (-0.225 : ℝ) = -(9 / 40) := by norm_num
  have harg2 : (-225 / 1000 : ℝ) = -(9 / 40) := by norm_num
  obtain ⟨hlo, hhi⟩ := exp_neg_nine_fortieths
  rw [harg]
  refine ⟨?_, ?_, ?_, ⟨?_, ?_⟩, ?_, ?_, ⟨?_, ?_⟩⟩
  · norm_num [stepDist, stepLocal, stepAt, G4ThreeVector.mid, defaultConfig, CLHEP.cm]
  · norm_num [stepTcorr, stepTime, stepDist, stepLocal, stepAt, G4ThreeVector.mid,
      defaultConfig, CLHEP.cm, CLHEP.ns, CLHEP.s]
  · norm_num [stepEcorr, stepDist, stepLocal, stepAt, G4ThreeVector.mid, defaultConfig,
      CLHEP.cm, CLHEP.MeV, harg2]
  · linarith
  · linarith
  · norm_num [processSteps, ProcessHits, postHit, postPoint, pointCondition, blockHits,
      Initialize, stepAt, defaultConfig, addHit, scanHits, mergeHit, stepTime, stepTcorr,
      stepEcorr, stepDist, stepLocal, G4ThreeVector.mid, G4ThreeVector.dot, CLHEP.ns, CLHEP.s,
      CLHEP.cm, CLHEP.GeV, CLHEP.MeV, abs_lt, add, entries, harg2]
  · norm_num [processSteps, ProcessHits, postHit, postPoint, pointCondition, blockHits,
      Initialize, stepAt, defaultConfig, addHit, scanHits, mergeHit, stepTime, stepTcorr,
      stepEcorr, stepDist, stepLocal, G4ThreeVector.mid, G4ThreeVector.dot, CLHEP.ns, CLHEP.s,
      CLHEP.cm, CLHEP.GeV, CLHEP.MeV, abs_lt, add, entries, harg2]
    ring
  · linarith
  · linarith

/-- C10 fails as stated: after the two steps of the worked example the block holds
exactly one hit, at 51.5 ns, but its energy in MeV is below 10.39, more than
0.6 MeV short of 10.99 MeV. -/
theorem C10_counterexample :
    ∃ h : hitinfo_t ℝ,
      blockHits (processSteps (defaultConfig Real.exp) [stepAt 50 0 10, stepAt 51.8 0 3]
        (Initialize (fun _ => ⟨0, 0⟩))) (GetKey 10 10) = [h] ∧
      h.t_ns = 51.5 ∧ h.E_GeV * CLHEP.GeV / CLHEP.MeV < 10.39 ∧
      ¬ |h.E_GeV * CLHEP.GeV / CLHEP.MeV - 10.99| ≤ 0.6 := by
  have harg2 : (-225 / 1000 : ℝ) = -(9 / 40) := by norm_num
  obtain ⟨hlo, hhi⟩ := exp_neg_nine_fortieths
  refine ⟨{ E_GeV := 13 * Real.exp (-(9 / 40)) / 1000, t_ns := 103 / 2 }, ?_, ?_, ?_, ?_⟩
  · norm_num [processSteps, ProcessHits, postHit, postPoint, pointCondition, blockHits,
      Initialize, stepAt, defaultConfig, addHit, scanHits, mergeHit, stepTime, stepTcorr,
      stepEcorr, stepDist, stepLocal, G4ThreeVector.mid, G4ThreeVector.dot, CLHEP.ns, CLHEP.s,
      CLHEP.cm, CLHEP.GeV, CLHEP.MeV, abs_lt, add, entries, harg2]
    ring
  · norm_num
  · norm_num [CLHEP.GeV, CLHEP.MeV]
    linarith
  · norm_num [CLHEP.GeV, CLHEP.MeV]
    rw [lt_abs]
    right
    linarith

/-! ## C11: separation invariant of the online merge -/

end FCAL
